import Mathlib

/-
Shallow embedding of the tabular pipeline of mk_design.py.

A pandas dataframe is modelled as a Table: a list of column names (the
header) and a list of rows, each row a list of cells.  A cell is either a
missing value (NaN), an integer, a rational number (standing for a Python
float; the pipeline performs only exact arithmetic on table values), or a
string (subject IDs live in the first column).  File IO is out of scope:
each function that reads or writes a file is modelled on the in-memory
data it parses or serializes.
-/

inductive Cell where
  | nan : Cell
  | int (z : ℤ) : Cell
  | float (q : ℚ) : Cell
  | str (s : String) : Cell
  deriving DecidableEq

/-- Tabular data: a header of column names and the rows.  The first column
holds the subject identifier. -/
structure Table where
  header : List String
  rows : List (List Cell)
  deriving DecidableEq

/-- Well-formedness: every row has one cell per header entry. -/
def WF (t : Table) : Prop := ∀ r ∈ t.rows, r.length = t.header.length

instance (t : Table) : Decidable (WF t) := List.decidableBAll _ t.rows

/-- Lexicographic comparison of character lists, mirroring Python string
comparison by code point (pandas sorts an object/string column this way). -/
def charListLeB : List Char → List Char → Bool
  | [], _ => true
  | _ :: _, [] => false
  | a :: as, b :: bs => if a < b then true else if b < a then false else charListLeB as bs

def strLeB (a b : String) : Bool := charListLeB a.toList b.toList

/-- Comparison of cell values as pandas sort_values orders them inside one
column: numbers by value, strings lexicographically, NaN last
(na_position='last' is the pandas default). -/
def cellLeB : Cell → Cell → Bool
  | .nan, .nan => true
  | _, .nan => true
  | .nan, _ => false
  | .str a, .str b => strLeB a b
  | .str _, _ => true
  | _, .str _ => false
  | .int a, .int b => decide (a ≤ b)
  | .int a, .float b => decide ((a : ℚ) ≤ b)
  | .float a, .int b => decide (a ≤ (b : ℚ))
  | .float a, .float b => decide (a ≤ b)

/-- Row order used by mk_df: ascending by the first (subject-ID) cell. -/
def rowLe (r₁ r₂ : List Cell) : Prop := cellLeB (r₁.getD 0 .nan) (r₂.getD 0 .nan) = true

instance : DecidableRel rowLe := fun _ _ => instDecidableEqBool _ _

/-- mk_design.py lines 75-92 (mk_df): builds the dataframe and sorts it in
place, ascending, by the first column (df.sort_values(by=col_names[0],
ascending=True)).  The parse step (pd.read_csv) is modelled as the identity
on the already-parsed table; the sort algorithm (quicksort there) is
modelled by insertion sort, which realizes the same ascending order. -/
def mk_df (t : Table) : Table := { t with rows := List.insertionSort rowLe t.rows }

/-- Python's substring test (pat in s). -/
def strContains (s pat : String) : Bool := s.toList.tails.any (fun suf => pat.toList.isPrefixOf suf)

/-- mk_design.py lines 30-58 (find_delim, existing-file branch): path is the
file name, firstLine the first line read from the file (as readlines
returns it, trailing newline included).  The extension tests look at the
whole path string; the content tests look at the first line. -/
def find_delim (path firstLine : String) : String :=
  if strContains path ".tsv" then "\t"
  else if strContains path ".csv" then ","
  else if strContains firstLine "," then ","
  else if strContains firstLine "\t" then "\t"
  else if strContains firstLine "\n" then "\n"
  else " "

/-- Comparison df[col_names[0]] == sub of an ID cell against a subject
string: true exactly on the equal string cell. -/
def idEqB (c : Cell) (s : String) : Bool :=
  match c with
  | .str u => u == s
  | _ => false

/-- mk_design.py lines 156-176 (subs_retain): for an empty keep list the
input frame itself is returned; otherwise rows are collected by appending,
for each listed subject in turn, the rows whose ID cell equals it. -/
def subs_retain (t : Table) (subs_keep : List String) : Table :=
  if subs_keep.isEmpty then t
  else { t with rows := subs_keep.flatMap (fun s => t.rows.filter (fun r => idEqB (r.getD 0 .nan) s)) }

/-- mk_design.py lines 95-113 (rm_sub): for each listed subject, drops the
rows whose ID cell equals it. -/
def rm_sub (t : Table) (rm_list : List String) : Table :=
  { t with rows := rm_list.foldl (fun rows s => rows.filter (fun r => ! idEqB (r.getD 0 .nan) s)) t.rows }

/-- Column selection df[kp_cols] by positional indices (the code maps the
indices to column names first; with the distinct header names of a parsed
file the two coincide). -/
def projectRow (idxs : List ℕ) (r : List Cell) : List Cell := idxs.map (fun i => r.getD i .nan)

/-- Row has no missing value (dropna keeps exactly these rows). -/
def noNanB (r : List Cell) : Bool := ! r.any (fun c => c == Cell.nan)

/-- mk_design.py lines 116-153 (keep_columns): kp_cols is the first column
name followed by the names at the requested indices; an empty request list
is replaced by range(1, len(col_names)); dropna(subset=kp_cols) then drops
every row holding a NaN in a kept column when rm_nan is set. -/
def keep_columns (t : Table) (kp_list : List ℕ) (rm_nan : Bool) : Table :=
  let kp := if kp_list.isEmpty then List.range' 1 (t.header.length - 1) else kp_list
  let idxs := 0 :: kp
  let t₂ : Table := { header := idxs.map (fun i => t.header.getD i ""),
                      rows := t.rows.map (projectRow idxs) }
  if rm_nan then { t₂ with rows := t₂.rows.filter noNanB } else t₂

/-- Numeric reading of a cell, none on NaN and on strings (pandas raises on
strings inside the numeric column operations; the claims about demeaning
assume numeric columns, as the demean_col docstring requires). -/
def toNum? : Cell → Option ℚ
  | .int z => some (z : ℚ)
  | .float q => some q
  | _ => none

def cellVal (c : Cell) : ℚ := (toNum? c).getD 0

/-- Values of column i, top to bottom. -/
def colVals (t : Table) (i : ℕ) : List Cell := t.rows.map (fun r => r.getD i .nan)

/-- Series.mean(): the mean of the non-missing numeric entries (pandas
skipna default). -/
def meanOf (vs : List Cell) : ℚ :=
  (vs.filterMap toNum?).sum / ((vs.filterMap toNum?).length : ℚ)

/-- Series.sub(mean) on one entry: numeric entries become floats shifted by
the mean, NaN stays NaN. -/
def demeanCell (m : ℚ) (c : Cell) : Cell :=
  match toNum? c with
  | some v => .float (v - m)
  | none => c

/-- One column demeaned as a value list. -/
def demeanVals (vs : List Cell) : List Cell := vs.map (demeanCell (meanOf vs))

/-- One iteration of the demean_col loop (mk_design.py line 337):
df_demean[col_names[i]] = df_demean[col_names[i]].sub(df_demean[col_names[i]].mean()). -/
def demeanOne (t : Table) (i : ℕ) : Table :=
  { t with rows := t.rows.map (fun r => r.set i (demeanCell (meanOf (colVals t i)) (r.getD i .nan))) }

/-- mk_design.py lines 317-339 (demean_col): loops the assignment above over
the given column indices. -/
def demean_col (t : Table) (col_indices : List ℕ) : Table := col_indices.foldl demeanOne t

/-- Names of the columns the demean_col loop assigns to: col_names[i] of the
dataframe demean_col receives, for each listed index i (line 337). -/
def demeanTargets (t : Table) (col_indices : List ℕ) : List String :=
  col_indices.map (fun i => t.header.getD i "")

/-- Every entry of the list is numeric (int or float). -/
def allNumB (vs : List Cell) : Bool := vs.all (fun c => (toNum? c).isSome)

/-- Floor of a rational number, computable form. -/
def ratFloor (q : ℚ) : ℤ := q.num.fdiv (q.den : ℤ)

/-- Rounding to the nearest integer (the formatted design values; the C
printf %.3f rounding of ties differs only on ties, which cannot change the
printed shape). -/
def roundQ (q : ℚ) : ℤ := ratFloor (q + 1/2)

/-- Exactly three decimal digits of m < 1000, zero padded. -/
def digit3 (m : ℕ) : String :=
  String.mk [Nat.digitChar (m / 100 % 10), Nat.digitChar (m / 10 % 10), Nat.digitChar (m % 10)]

/-- The float_format='%.3f' rendering used by write_design (line 311): sign,
integer part, a point, then exactly three fractional digits. -/
def fmt3 (q : ℚ) : String :=
  (if roundQ (q * 1000) < 0 then "-" else "")
    ++ toString ((roundQ (q * 1000)).natAbs / 1000)
    ++ "." ++ digit3 ((roundQ (q * 1000)).natAbs % 1000)

/-- How to_csv(na_rep="NaN", float_format='%.3f') prints one cell: missing
values as the literal NaN, floats with three decimal places, integers and
strings as themselves. -/
def renderCell : Cell → String
  | .nan => "NaN"
  | .int z => toString z
  | .float q => fmt3 q
  | .str s => s

/-- Join of the rendered fields of one output line by the separator. -/
def joinSep (sep : String) : List String → String
  | [] => ""
  | x :: xs => xs.foldl (fun acc y => acc ++ sep ++ y) x

/-- DataFrame.to_csv(sep, header, index=False, na_rep="NaN",
float_format='%.3f') as the list of output lines. -/
def toCsvLines (t : Table) (sep : String) (header : Bool) : List String :=
  (if header then [joinSep sep t.header] else []) ++ t.rows.map (fun r => joinSep sep (r.map renderCell))

/-- mk_design.py lines 286-314 (write_design): out_cols is every column name
but the first; df[out_cols] is serialized with header=False, index=False. -/
def write_design (t : Table) (sep : String) : List String :=
  let outIdxs := List.range' 1 (t.header.length - 1)
  toCsvLines { header := outIdxs.map (fun i => t.header.getD i ""),
               rows := t.rows.map (projectRow outIdxs) } sep false

/-- An ID cell as the Python value put into the subject sets and list
files (the parsed first column holds strings). -/
def idStr (c : Cell) : String :=
  match c with
  | .str s => s
  | .int z => toString z
  | .float q => fmt3 q
  | .nan => "NaN"

/-- Subject-ID column of a table as a list (df[col_names[0]].to_list()). -/
def ids (t : Table) : List String := t.rows.map (fun r => idStr (r.getD 0 .nan))

/-- Python list.sort() on strings. -/
def sortStrings (l : List String) : List String :=
  List.insertionSort (fun a b => strLeB a b = true) l

/-- mk_design.py lines 179-217 (mk_adj_sub_list): set difference of the two
ID sets, extended by the manual removal list, both results sorted; a
Python set is modelled as a deduplicated list, made canonical by the final
sorts. -/
def mk_adj_sub_list (df_all df_subs : Table) (rm_list : List String) :
    List String × List String :=
  let all_subs := ids df_all
  let keep_subs := ids df_subs
  let rm_set := all_subs.dedup.filter (fun s => ! keep_subs.contains s)
  (sortStrings (rm_set ++ rm_list), sortStrings keep_subs.dedup)

/-- mk_design.py lines 342-411 (mk_design): the dataframe pipeline and the
three outputs (design-matrix lines, exclusion list, inclusion list).  The
string-to-list parsing of the CLI arguments (parse_str_list) is out of
scope; the already-parsed lists are taken directly.  Note the reconciliation
call at line 397 passes df (the filtered, possibly demeaned frame) as
df_all and df_cols as df_subs. -/
def mk_design (t : Table) (rm_list ret_list : List String)
    (kp_col_list demean_ind : List ℕ) (rm_nan : Bool) (sep : String) :
    List String × List String × List String :=
  let df_init := mk_df t
  let df_keep := subs_retain df_init ret_list
  let df_rm := rm_sub df_keep rm_list
  let df_cols := keep_columns df_rm kp_col_list rm_nan
  let df := if demean_ind.isEmpty then df_cols else demean_col df_cols demean_ind
  let lists := mk_adj_sub_list df df_cols rm_list
  (write_design df sep, lists.1, lists.2)

/-- Concrete two-subject table: sub-002 carries a missing covariate value. -/
def exTblNan : Table :=
  { header := ["sub", "age"],
    rows := [[.str "sub-001", .int 10], [.str "sub-002", .nan]] }

/-- Concrete table with two covariate columns A and B. -/
def exTblAB : Table :=
  { header := ["sub", "A", "B"],
    rows := [[.str "s1", .int 1, .int 10], [.str "s2", .int 3, .int 20]] }

/-- Concrete three-subject table used as the row-filter example. -/
def exTblRet : Table :=
  { header := ["sub", "x"],
    rows := [[.str "sub-001", .int 1], [.str "sub-002", .int 2], [.str "sub-003", .int 3]] }

/- List helper lemmas. -/

theorem getD_set_self {α : Type} (l : List α) (i : ℕ) (a d : α) (h : i < l.length) :
    (l.set i a).getD i d = a := by
  induction l generalizing i with
  | nil => simp at h
  | cons c rest ih =>
      cases i with
      | zero => rfl
      | succ j =>
          simp only [List.set, List.getD_cons_succ]
          exact ih j (by simpa using h)

theorem getD_set_ne {α : Type} (l : List α) (i j : ℕ) (a d : α) (h : i ≠ j) :
    (l.set i a).getD j d = l.getD j d := by
  induction l generalizing i j with
  | nil => rfl
  | cons c rest ih =>
      cases i with
      | zero =>
          cases j with
          | zero => exact absurd rfl h
          | succ m => rfl
      | succ n =>
          cases j with
          | zero => rfl
          | succ m =>
              simp only [List.set, List.getD_cons_succ]
              exact ih n m (by omega)

theorem map_getD_shift {α : Type} (c : α) (l : List α) (d : α) :
    ∀ (n a : ℕ), (List.range' (a+1) n).map (fun i => (c :: l).getD i d)
      = (List.range' a n).map (fun i => l.getD i d)
  | 0, _ => rfl
  | n+1, a => by
      have h1 : List.range' (a+1) (n+1) = (a+1) :: List.range' (a+2) n := rfl
      have h2 : List.range' a (n+1) = a :: List.range' (a+1) n := rfl
      rw [h1, h2, List.map_cons, List.map_cons, List.getD_cons_succ,
        map_getD_shift c l d n (a+1)]

theorem map_getD_self {α : Type} : ∀ (l : List α) (d : α),
    (List.range' 0 l.length).map (fun i => l.getD i d) = l
  | [], _ => rfl
  | c :: l, d => by
      have h : List.range' 0 (l.length + 1) = 0 :: List.range' 1 l.length := rfl
      show (List.range' 0 (l.length + 1)).map (fun i => (c :: l).getD i d) = c :: l
      rw [h, List.map_cons, map_getD_shift c l d l.length 0, map_getD_self l d]
      rfl

theorem map_getD_cons_all {α : Type} (l : List α) (d : α) (h : l ≠ []) :
    (0 :: List.range' 1 (l.length - 1)).map (fun i => l.getD i d) = l := by
  cases l with
  | nil => exact absurd rfl h
  | cons c rest =>
      show ((c :: rest).getD 0 d) :: (List.range' 1 rest.length).map (fun i => (c :: rest).getD i d)
        = c :: rest
      rw [map_getD_shift c rest d rest.length 0, map_getD_self rest d]
      rfl

/- Totality and transitivity of the cell comparison, for the sortedness of
the loader output. -/

theorem charListLeB_total : ∀ as bs : List Char, charListLeB as bs = true ∨ charListLeB bs as = true
  | [], [] => Or.inl rfl
  | [], _ :: _ => Or.inl rfl
  | _ :: _, [] => Or.inr rfl
  | a :: as, b :: bs => by
      rcases lt_trichotomy a b with h | h | h
      · left; simp [charListLeB, h]
      · subst h
        rcases charListLeB_total as bs with ih | ih
        · left; simp [charListLeB, lt_irrefl, ih]
        · right; simp [charListLeB, lt_irrefl, ih]
      · right; simp [charListLeB, h]

theorem charListLeB_trans : ∀ as bs cs : List Char,
    charListLeB as bs = true → charListLeB bs cs = true → charListLeB as cs = true
  | [], _, _ => fun _ _ => rfl
  | _ :: _, [], _ => fun h _ => by simp [charListLeB] at h
  | _ :: _, _ :: _, [] => fun _ h => by simp [charListLeB] at h
  | a :: as, b :: bs, c :: cs => by
      intro h₁ h₂
      by_cases hab : a < b
      · by_cases hbc : b < c
        · simp [charListLeB, lt_trans hab hbc]
        · by_cases hcb : c < b
          · simp only [charListLeB, if_pos hbc] at h₂
            simp [if_neg hbc, hcb] at h₂
          · have hbc' : b = c := le_antisymm (not_lt.mp hcb) (not_lt.mp hbc)
            subst hbc'
            simp [charListLeB, hab]
      · by_cases hba : b < a
        · simp [charListLeB, hab, hba] at h₁
        · have hab' : a = b := le_antisymm (not_lt.mp hba) (not_lt.mp hab)
          subst hab'
          simp only [charListLeB, if_neg (lt_irrefl a)] at h₁
          by_cases hac : a < c
          · simp [charListLeB, hac]
          · by_cases hca : c < a
            · simp [charListLeB, hac, hca] at h₂
            · have : a = c := le_antisymm (not_lt.mp hca) (not_lt.mp hac)
              subst this
              simp only [charListLeB, if_neg (lt_irrefl a)] at h₂ ⊢
              exact charListLeB_trans as bs cs h₁ h₂

theorem strLeB_total (a b : String) : strLeB a b = true ∨ strLeB b a = true :=
  charListLeB_total a.toList b.toList

theorem strLeB_trans (a b c : String) (h₁ : strLeB a b = true) (h₂ : strLeB b c = true) :
    strLeB a c = true :=
  charListLeB_trans a.toList b.toList c.toList h₁ h₂

theorem cellLeB_total (a b : Cell) : cellLeB a b = true ∨ cellLeB b a = true := by
  rcases a with _ | za | qa | sa <;> rcases b with _ | zb | qb | sb <;>
    simp [cellLeB] <;> first | exact strLeB_total _ _ | exact le_total _ _

theorem cellLeB_trans (a b c : Cell) (h₁ : cellLeB a b = true) (h₂ : cellLeB b c = true) :
    cellLeB a c = true := by
  rcases a with _ | za | qa | sa <;> rcases b with _ | zb | qb | sb <;>
    rcases c with _ | zc | qc | sc <;> simp [cellLeB] at h₁ h₂ ⊢ <;>
    first
    | exact le_trans h₁ h₂
    | exact le_trans (Int.cast_le.mpr h₁) h₂
    | exact le_trans h₁ (Int.cast_le.mpr h₂)
    | exact Int.cast_le.mp (le_trans h₁ h₂)
    | exact strLeB_trans _ _ _ h₁ h₂

instance : IsTotal (List Cell) rowLe := ⟨fun _ _ => cellLeB_total _ _⟩

instance : IsTrans (List Cell) rowLe := ⟨fun _ _ _ => cellLeB_trans _ _ _⟩

/-- C5: for every input table, the table produced by the loader (mk_df) has
its rows sorted in ascending order by the value of the first (subject-ID)
column. -/
theorem C5_loader_sorted (t : Table) : List.Sorted rowLe (mk_df t).rows :=
  List.sorted_insertionSort rowLe t.rows

/-- C8 counterexample: the claim says every existing file whose path
contains '.csv' gets a comma regardless of content, but on the path
'a.tsv.csv' (which also contains '.tsv') the code returns a tab. -/
theorem C8_counterexample :
    strContains "a.tsv.csv" ".csv" = true ∧
    find_delim "a.tsv.csv" "sub,age\n" = "\t" ∧ ("\t" : String) ≠ "," := by
  refine ⟨by decide, by decide, by decide⟩

/-- C8 (amended): the extension tests are ordered, '.tsv' before '.csv':
a path containing '.tsv' gives a tab; otherwise a path containing '.csv'
gives a comma; otherwise the delimiter comes from the first line of the
file with comma preferred over tab, tab over newline, and space as the
default. -/
theorem C8_amended_precedence (path line : String) :
    (strContains path ".tsv" = true → find_delim path line = "\t") ∧
    (strContains path ".tsv" = false → strContains path ".csv" = true →
      find_delim path line = ",") ∧
    (strContains path ".tsv" = false → strContains path ".csv" = false →
      strContains line "," = true → find_delim path line = ",") ∧
    (strContains path ".tsv" = false → strContains path ".csv" = false →
      strContains line "," = false → strContains line "\t" = true →
      find_delim path line = "\t") ∧
    (strContains path ".tsv" = false → strContains path ".csv" = false →
      strContains line "," = false → strContains line "\t" = false →
      strContains line "\n" = true → find_delim path line = "\n") ∧
    (strContains path ".tsv" = false → strContains path ".csv" = false →
      strContains line "," = false → strContains line "\t" = false →
      strContains line "\n" = false → find_delim path line = " ") := by
  refine ⟨?_, ?_, ?_, ?_, ?_, ?_⟩ <;> intros <;> simp [find_delim, *]

theorem C8_amended_precedence_witness :
    strContains "a.tsv" ".tsv" = true ∧ find_delim "a.tsv" "x" = "\t" :=
  ⟨by decide, (C8_amended_precedence "a.tsv" "x").1 (by decide)⟩

/-- C10: in the written design matrix, every floating-point value is
rendered (by the cell renderer of write_design, modelling
float_format='%.3f') as an integer part, a point, and exactly three
fractional digits, and every missing value is rendered as the literal
string NaN (na_rep="NaN"). -/
theorem C10_render_three_decimals :
    (∀ q : ℚ, ∃ intPart frac : String,
      renderCell (Cell.float q) = intPart ++ "." ++ frac ∧
      frac.length = 3 ∧ frac.toList.all Char.isDigit = true) ∧
    renderCell Cell.nan = "NaN" := by
  have hd : ∀ d : ℕ, d < 10 → (Nat.digitChar d).isDigit = true := by decide
  have h10 : ∀ m : ℕ, (Nat.digitChar (m % 10)).isDigit = true :=
    fun m => hd _ (Nat.mod_lt _ (by norm_num))
  refine ⟨fun q => ?_, rfl⟩
  refine ⟨(if roundQ (q * 1000) < 0 then "-" else "")
      ++ toString ((roundQ (q * 1000)).natAbs / 1000),
    digit3 ((roundQ (q * 1000)).natAbs % 1000), rfl, rfl, ?_⟩
  simp [digit3, h10, Nat.mod_mod_of_dvd]

/- Column selector lemmas. -/

theorem keep_columns_header (t : Table) (kp_list : List ℕ) (rm_nan : Bool) (h : kp_list ≠ []) :
    (keep_columns t kp_list rm_nan).header
      = t.header.getD 0 "" :: kp_list.map (fun i => t.header.getD i "") := by
  have he : kp_list.isEmpty = false := by
    cases kp_list with
    | nil => exact absurd rfl h
    | cons a l => rfl
  cases rm_nan <;> simp [keep_columns, he]

/-- C9: when the requested keep-column list is empty, the column selector
retains every column of the input table, the subject-ID column followed by
all covariate columns in their original order (rows are still subject to
the missing-value drop when it is enabled). -/
theorem C9_empty_keep (t : Table) (rm_nan : Bool) (hWF : WF t) (hne : t.header ≠ []) :
    (keep_columns t [] rm_nan).header = t.header ∧
    (keep_columns t [] rm_nan).rows = (if rm_nan then t.rows.filter noNanB else t.rows) := by
  have hrow : ∀ r ∈ t.rows, projectRow (0 :: List.range' 1 (t.header.length - 1)) r = r := by
    intro r hr
    have hlen : r.length = t.header.length := hWF r hr
    have hr0 : r ≠ [] := by
      intro hnil
      rw [hnil] at hlen
      exact hne (List.length_eq_zero.mp hlen.symm)
    show (0 :: List.range' 1 (t.header.length - 1)).map (fun i => r.getD i .nan) = r
    rw [← hlen]
    exact map_getD_cons_all r .nan hr0
  have hmap : t.rows.map (projectRow (0 :: List.range' 1 (t.header.length - 1))) = t.rows := by
    rw [List.map_congr_left hrow]
    simp
  constructor
  · cases rm_nan <;> exact map_getD_cons_all t.header "" hne
  · cases rm_nan
    · exact hmap
    · show (t.rows.map (projectRow (0 :: List.range' 1 (t.header.length - 1)))).filter noNanB
        = t.rows.filter noNanB
      rw [hmap]

theorem C9_empty_keep_witness :
    WF exTblNan ∧ exTblNan.header ≠ [] ∧
    ((keep_columns exTblNan [] true).header = exTblNan.header ∧
     (keep_columns exTblNan [] true).rows
       = (if true then exTblNan.rows.filter noNanB else exTblNan.rows)) :=
  ⟨by decide, by decide, C9_empty_keep exTblNan true (by decide) (by decide)⟩

/-- C4: for a non-empty request list with in-range indices, the column
selector's output has as its columns the subject-ID (first) column followed
by exactly the requested columns, each output row is the projection of an
input row onto those columns, and when missing-value removal is enabled no
row of the output holds a missing value in any retained column. -/
theorem C4_column_selector (t : Table) (kp_list : List ℕ) (rm_nan : Bool)
    (hne : kp_list ≠ []) (hb : ∀ i ∈ kp_list, i < t.header.length) :
    (keep_columns t kp_list rm_nan).header
      = t.header.getD 0 "" :: kp_list.map (fun i => t.header.getD i "") ∧
    (∀ r ∈ (keep_columns t kp_list rm_nan).rows, ∃ r₀ ∈ t.rows, r = projectRow (0 :: kp_list) r₀) ∧
    (rm_nan = true → ∀ r ∈ (keep_columns t kp_list rm_nan).rows, ∀ c ∈ r, c ≠ Cell.nan) := by
  have he : kp_list.isEmpty = false := by
    cases kp_list with
    | nil => exact absurd rfl hne
    | cons a l => rfl
  have hrows : (keep_columns t kp_list rm_nan).rows
      = (if rm_nan then (t.rows.map (projectRow (0 :: kp_list))).filter noNanB
         else t.rows.map (projectRow (0 :: kp_list))) := by
    cases rm_nan <;> simp [keep_columns, he]
  refine ⟨keep_columns_header t kp_list rm_nan hne, ?_, ?_⟩
  · intro r hr
    rw [hrows] at hr
    cases rm_nan with
    | true =>
        rw [if_pos rfl] at hr
        simp only [List.mem_filter, List.mem_map] at hr
        obtain ⟨⟨r₀, hr₀, hproj⟩, _⟩ := hr
        exact ⟨r₀, hr₀, hproj.symm⟩
    | false =>
        rw [if_neg Bool.false_ne_true] at hr
        simp only [List.mem_map] at hr
        obtain ⟨r₀, hr₀, hproj⟩ := hr
        exact ⟨r₀, hr₀, hproj.symm⟩
  · intro hrm r hr c hc
    subst hrm
    rw [hrows, if_pos rfl] at hr
    have hno : noNanB r = true := by
      simp only [List.mem_filter] at hr
      exact hr.2
    simp only [noNanB, Bool.not_eq_true', List.any_eq_false, beq_iff_eq] at hno
    exact hno c hc

theorem C4_column_selector_witness :
    (([2] : List ℕ) ≠ []) ∧ (∀ i ∈ ([2] : List ℕ), i < exTblAB.header.length) ∧
    ((keep_columns exTblAB [2] true).header
        = exTblAB.header.getD 0 "" :: ([2] : List ℕ).map (fun i => exTblAB.header.getD i "") ∧
     (∀ r ∈ (keep_columns exTblAB [2] true).rows,
        ∃ r₀ ∈ exTblAB.rows, r = projectRow (0 :: [2]) r₀) ∧
     (true = true → ∀ r ∈ (keep_columns exTblAB [2] true).rows, ∀ c ∈ r, c ≠ Cell.nan)) :=
  ⟨by decide, by decide, C4_column_selector exTblAB [2] true (by decide) (by decide)⟩

/-- C2 counterexample: with the subject-ID column plus original column 2
selected (kp_list = [2]) and demean index 1, the column the demean loop
centers in the filtered table is B (the column at position 1 of the
filtered ordering, holding values 10 and 20, centered to -5 and 5), not A,
the column at position 1 of the original pre-selection ordering. -/
theorem C2_counterexample :
    demeanTargets (keep_columns exTblAB [2] true) [1] = ["B"] ∧
    exTblAB.header.getD 1 "" = "A" ∧
    colVals (demean_col (keep_columns exTblAB [2] true) [1]) 1
      = [Cell.float (-5), Cell.float 5] ∧
    (["B"] : List String) ≠ ["A"] := by
  refine ⟨by decide, by decide, ?_, by decide⟩
  simp [demean_col, demeanOne, keep_columns, colVals, meanOf, toNum?, demeanCell,
    exTblAB, projectRow, noNanB]
  norm_num

/-- C2 (amended): the demean indices are zero-based positions into the
filtered table's column ordering: for every table, every non-empty
selection list and every demean index i, the column centered is the column
at position i of the subject-ID column followed by the selected columns. -/
theorem C2_amended_indices (t : Table) (kp_list : List ℕ) (rm_nan : Bool)
    (demean_ind : List ℕ) (hne : kp_list ≠ []) :
    demeanTargets (keep_columns t kp_list rm_nan) demean_ind
      = demean_ind.map (fun i =>
          (t.header.getD 0 "" :: kp_list.map (fun j => t.header.getD j "")).getD i "") := by
  unfold demeanTargets
  rw [keep_columns_header t kp_list rm_nan hne]

theorem C2_amended_indices_witness :
    (([2] : List ℕ) ≠ []) ∧
    demeanTargets (keep_columns exTblAB [2] true) [1]
      = ([1] : List ℕ).map (fun i =>
          (exTblAB.header.getD 0 ""
            :: ([2] : List ℕ).map (fun j => exTblAB.header.getD j "")).getD i "") :=
  ⟨by decide, C2_amended_indices exTblAB [2] true [1] (by decide)⟩

/- Writer lemmas. -/

theorem projectRow_drop (r : List Cell) (n : ℕ) (h : r.length = n) :
    projectRow (List.range' 1 (n - 1)) r = r.drop 1 := by
  cases r with
  | nil =>
      subst h
      rfl
  | cons c rest =>
      subst h
      show (List.range' 1 ((c :: rest).length - 1)).map (fun i => (c :: rest).getD i .nan) = rest
      have hlen : (c :: rest).length - 1 = rest.length := by simp
      rw [hlen, map_getD_shift c rest .nan rest.length 0, map_getD_self rest .nan]

/-- C6: for every well-formed table, the written design-matrix file contains
only the covariate columns (every column except the first, subject-ID,
column) and has no header row and no row index: there is one output line
per data row, and each line is exactly the separator-join of the rendered
covariate cells of its row. -/
theorem C6_design_covariates_only (t : Table) (sep : String) (hWF : WF t) :
    (write_design t sep).length = t.rows.length ∧
    write_design t sep = t.rows.map (fun r => joinSep sep ((r.drop 1).map renderCell)) := by
  have hmap : t.rows.map (projectRow (List.range' 1 (t.header.length - 1)))
      = t.rows.map (fun r => r.drop 1) :=
    List.map_congr_left (fun r hr => projectRow_drop r t.header.length (hWF r hr))
  have hmain : write_design t sep = t.rows.map (fun r => joinSep sep ((r.drop 1).map renderCell)) := by
    show (t.rows.map (projectRow (List.range' 1 (t.header.length - 1)))).map
        (fun r => joinSep sep (r.map renderCell))
      = t.rows.map (fun r => joinSep sep ((r.drop 1).map renderCell))
    rw [hmap, List.map_map]
    rfl
  refine ⟨?_, hmain⟩
  rw [hmain, List.length_map]

theorem C6_design_covariates_only_witness :
    WF exTblAB ∧
    ((write_design exTblAB " ").length = exTblAB.rows.length ∧
     write_design exTblAB " "
       = exTblAB.rows.map (fun r => joinSep " " ((r.drop 1).map renderCell))) :=
  ⟨by decide, C6_design_covariates_only exTblAB " " (by decide)⟩

/- Row filter lemmas. -/

theorem foldl_filter {α β : Type} (p : β → α → Bool) :
    ∀ (rs : List β) (l : List α),
      rs.foldl (fun acc s => acc.filter (p s)) l = l.filter (fun x => rs.all (fun s => p s x))
  | [], l => by simp
  | s :: rs, l => by
      show rs.foldl _ (l.filter (p s)) = _
      rw [foldl_filter p rs (l.filter (p s)), List.filter_filter]
      exact List.filter_congr (fun x _ => by simp [List.all_cons, Bool.and_comm])

theorem filter_append_perm_or {α : Type} (q p : α → Bool)
    (hdisj : ∀ x, q x = true → p x = false) :
    ∀ l : List α, List.Perm (l.filter q ++ l.filter p) (l.filter (fun x => q x || p x))
  | [] => by simp
  | r :: l => by
      cases hq : q r with
      | true =>
          have hp : p r = false := hdisj r hq
          simp only [List.filter_cons, hq, hp, if_true, if_false, Bool.true_or, cond_true,
            cond_false]
          exact ((filter_append_perm_or q p hdisj l).cons r)
      | false =>
          cases hp : p r with
          | true =>
              simp only [List.filter_cons, hq, hp, Bool.false_or, cond_true, cond_false]
              exact List.perm_middle.trans ((filter_append_perm_or q p hdisj l).cons r)
          | false =>
              simp only [List.filter_cons, hq, hp, Bool.false_or, cond_false]
              exact filter_append_perm_or q p hdisj l

theorem flatMap_filter_perm (rows : List (List Cell)) :
    ∀ ks : List String, ks.Nodup →
      List.Perm (ks.flatMap (fun s => rows.filter (fun r => idEqB (r.getD 0 .nan) s)))
        (rows.filter (fun r => ks.any (fun s => idEqB (r.getD 0 .nan) s)))
  | [], _ => by simp
  | s :: ks, hnd => by
      obtain ⟨hs, hnd'⟩ := List.nodup_cons.mp hnd
      have hdisj : ∀ r : List Cell, idEqB (r.getD 0 .nan) s = true →
          (ks.any (fun s' => idEqB (r.getD 0 .nan) s')) = false := by
        intro r h
        by_contra hne
        rw [Bool.not_eq_false, List.any_eq_true] at hne
        obtain ⟨s', hs', hEq⟩ := hne
        cases hc : r.getD 0 .nan with
        | nan => rw [hc] at h; simp [idEqB] at h
        | int z => rw [hc] at h; simp [idEqB] at h
        | float q => rw [hc] at h; simp [idEqB] at h
        | str u =>
            rw [hc] at h hEq
            simp only [idEqB, beq_iff_eq] at h hEq
            subst h
            subst hEq
            exact hs hs'
      have h1 : List.Perm
          (ks.flatMap (fun s' => rows.filter (fun r => idEqB (r.getD 0 .nan) s')))
          (rows.filter (fun r => ks.any (fun s' => idEqB (r.getD 0 .nan) s'))) :=
        flatMap_filter_perm rows ks hnd'
      show List.Perm (rows.filter (fun r => idEqB (r.getD 0 .nan) s) ++ _) _
      refine ((h1.append_left _).trans ?_)
      refine (filter_append_perm_or _ _ hdisj rows).trans ?_
      have heq : rows.filter
            (fun x => idEqB (x.getD 0 .nan) s || ks.any fun s' => idEqB (x.getD 0 .nan) s')
          = rows.filter (fun r => (s :: ks).any fun s' => idEqB (r.getD 0 .nan) s') :=
        List.filter_congr (fun x _ => by simp [List.any_cons])
      rw [heq]

/-- C7: row filtering is by subject-ID set membership: with a duplicate-free
retain set, the rows surviving subs_retain followed by rm_sub are, as a
multiset (each qualifying row appearing exactly once), precisely the input
rows whose ID is in the retain set (when a non-empty retain set is given)
and not in the remove set. -/
theorem C7_row_filter (t : Table) (ks rs : List String) (hnd : ks.Nodup) :
    List.Perm (rm_sub (subs_retain t ks) rs).rows
      (t.rows.filter (fun r =>
        (ks.isEmpty || ks.any (fun s => idEqB (r.getD 0 .nan) s)) &&
        rs.all (fun s => ! idEqB (r.getD 0 .nan) s))) := by
  have hrm : (rm_sub (subs_retain t ks) rs).rows
      = (subs_retain t ks).rows.filter (fun r => rs.all (fun s => ! idEqB (r.getD 0 .nan) s)) :=
    foldl_filter (fun (s : String) (r : List Cell) => ! idEqB (r.getD 0 .nan) s) rs
      (subs_retain t ks).rows
  rw [hrm]
  cases ks with
  | nil =>
      show List.Perm (t.rows.filter _) _
      have heq : (t.rows.filter fun r => rs.all fun s => ! idEqB (r.getD 0 .nan) s)
          = t.rows.filter (fun r =>
              ((List.isEmpty ([] : List String)
                  || List.any [] fun s => idEqB (r.getD 0 .nan) s) &&
               rs.all fun s => ! idEqB (r.getD 0 .nan) s)) :=
        List.filter_congr (fun x _ => by simp)
      rw [heq]
  | cons k ks' =>
      have hperm := flatMap_filter_perm t.rows (k :: ks') hnd
      show List.Perm ((List.flatMap _ _).filter _) _
      refine (hperm.filter _).trans ?_
      rw [List.filter_filter]
      have heq : (t.rows.filter fun a =>
            (rs.all fun s => ! idEqB (a.getD 0 .nan) s) &&
            ((k :: ks').any fun s => idEqB (a.getD 0 .nan) s))
          = t.rows.filter (fun r =>
              ((k :: ks').isEmpty || (k :: ks').any fun s => idEqB (r.getD 0 .nan) s) &&
              rs.all fun s => ! idEqB (r.getD 0 .nan) s) :=
        List.filter_congr (fun x _ => by simp [List.isEmpty_cons, Bool.and_comm])
      rw [heq]

theorem C7_row_filter_witness :
    (["sub-003", "sub-001"] : List String).Nodup ∧
    List.Perm (rm_sub (subs_retain exTblRet ["sub-003", "sub-001"]) ["sub-001"]).rows
      (exTblRet.rows.filter (fun r =>
        ((["sub-003", "sub-001"] : List String).isEmpty
          || (["sub-003", "sub-001"] : List String).any (fun s => idEqB (r.getD 0 .nan) s)) &&
        (["sub-001"] : List String).all (fun s => ! idEqB (r.getD 0 .nan) s))) :=
  ⟨by decide, C7_row_filter exTblRet ["sub-003", "sub-001"] ["sub-001"] (by decide)⟩

/- Centering transform lemmas. -/

theorem demeanCell_some (m : ℚ) (c : Cell) (v : ℚ) (h : toNum? c = some v) :
    demeanCell m c = .float (v - m) := by
  unfold demeanCell
  rw [h]

theorem colVals_demeanOne_self (t : Table) (i : ℕ) (hWF : WF t) (hi : i < t.header.length) :
    colVals (demeanOne t i) i = demeanVals (colVals t i) := by
  simp only [colVals, demeanOne, demeanVals, List.map_map]
  apply List.map_congr_left
  intro r hr
  simp only [Function.comp]
  exact getD_set_self r i _ .nan (by rw [hWF r hr]; exact hi)

theorem colVals_demeanOne_ne (t : Table) (i j : ℕ) (h : i ≠ j) :
    colVals (demeanOne t i) j = colVals t j := by
  simp only [colVals, demeanOne, List.map_map]
  apply List.map_congr_left
  intro r _
  simp only [Function.comp]
  exact getD_set_ne r i j _ .nan h

theorem WF_demeanOne (t : Table) (i : ℕ) (h : WF t) : WF (demeanOne t i) := by
  intro r hr
  simp only [demeanOne, List.mem_map] at hr
  obtain ⟨r₀, hr₀, rfl⟩ := hr
  show (r₀.set i _).length = t.header.length
  rw [List.length_set]
  exact h r₀ hr₀

theorem colVals_demean_col_not_mem :
    ∀ (ds : List ℕ) (t : Table) (i : ℕ), i ∉ ds →
      colVals (demean_col t ds) i = colVals t i
  | [], _, _, _ => rfl
  | a :: ds, t, i, h => by
      have hia : i ≠ a := fun e => h (e ▸ List.mem_cons_self a ds)
      show colVals (demean_col (demeanOne t a) ds) i = _
      rw [colVals_demean_col_not_mem ds (demeanOne t a) i
        (fun hm => h (List.mem_cons_of_mem a hm))]
      exact colVals_demeanOne_ne t a i (fun e => hia e.symm)

theorem allNumB_demeanVals (vs : List Cell) (h : allNumB vs = true) :
    allNumB (demeanVals vs) = true := by
  simp only [allNumB, List.all_eq_true] at h ⊢
  intro c hc
  simp only [demeanVals, List.mem_map] at hc
  obtain ⟨c₀, hc₀, rfl⟩ := hc
  have hnum := h c₀ hc₀
  cases hopt : toNum? c₀ with
  | none => rw [hopt] at hnum; simp at hnum
  | some v =>
      rw [demeanCell_some _ _ _ hopt]
      simp [toNum?]

theorem filterMap_toNum_of_allNum :
    ∀ vs : List Cell, allNumB vs = true → vs.filterMap toNum? = vs.map cellVal
  | [], _ => rfl
  | c :: vs, h => by
      simp only [allNumB, List.all_cons, Bool.and_eq_true] at h
      obtain ⟨hc, hvs⟩ := h
      cases hopt : toNum? c with
      | none => rw [hopt] at hc; simp at hc
      | some v =>
          rw [List.filterMap_cons, hopt, List.map_cons,
            filterMap_toNum_of_allNum vs (by simpa [allNumB] using hvs)]
          simp [cellVal, hopt]

theorem meanOf_allNum (vs : List Cell) (h : allNumB vs = true) :
    meanOf vs = (vs.map cellVal).sum / (vs.length : ℚ) := by
  unfold meanOf
  rw [filterMap_toNum_of_allNum vs h, List.length_map]

theorem sum_map_sub_const (vs : List Cell) (m : ℚ) :
    (vs.map (fun c => cellVal c - m)).sum = (vs.map cellVal).sum - vs.length * m := by
  induction vs with
  | nil => simp
  | cons c vs ih =>
      simp only [List.map_cons, List.sum_cons, ih, List.length_cons]
      push_cast
      ring

theorem map_cellVal_demeanVals (vs : List Cell) (h : allNumB vs = true) :
    (demeanVals vs).map cellVal = vs.map (fun c => cellVal c - meanOf vs) := by
  unfold demeanVals
  rw [List.map_map]
  apply List.map_congr_left
  intro c hc
  have hc' : (toNum? c).isSome = true := by
    simp only [allNumB, List.all_eq_true] at h
    exact h c hc
  cases hopt : toNum? c with
  | none => rw [hopt] at hc'; simp at hc'
  | some v =>
      simp only [Function.comp]
      rw [demeanCell_some _ _ _ hopt]
      simp only [cellVal]
      rw [hopt]
      simp [toNum?]

theorem meanOf_demeanVals (vs : List Cell) (h : allNumB vs = true) :
    meanOf (demeanVals vs) = 0 := by
  rw [meanOf_allNum _ (allNumB_demeanVals vs h), map_cellVal_demeanVals vs h,
    sum_map_sub_const]
  have hlen : (demeanVals vs).length = vs.length := List.length_map _ _
  rw [hlen]
  rcases Nat.eq_zero_or_pos vs.length with h0 | hpos
  · rw [h0]
    simp
  · have hn : (vs.length : ℚ) ≠ 0 := Nat.cast_ne_zero.mpr (Nat.pos_iff_ne_zero.mp hpos)
    rw [meanOf_allNum vs h]
    field_simp

theorem demeanVals_idem (vs : List Cell) (h : allNumB vs = true) :
    demeanVals (demeanVals vs) = demeanVals vs := by
  show (demeanVals vs).map (demeanCell (meanOf (demeanVals vs))) = demeanVals vs
  rw [meanOf_demeanVals vs h]
  have : ∀ c ∈ demeanVals vs, demeanCell 0 c = c := by
    intro c hc
    simp only [demeanVals, List.mem_map] at hc
    obtain ⟨c₀, hc₀, rfl⟩ := hc
    have hc' : (toNum? c₀).isSome = true := by
      simp only [allNumB, List.all_eq_true] at h
      exact h c₀ hc₀
    cases hopt : toNum? c₀ with
    | none => rw [hopt] at hc'; simp at hc'
    | some v =>
        rw [demeanCell_some _ _ _ hopt, demeanCell_some 0 _ (v - meanOf vs) (by simp [toNum?])]
        rw [sub_zero]
  rw [List.map_congr_left this]
  simp

theorem colVals_demean_col_mem :
    ∀ (ds : List ℕ) (t : Table) (i : ℕ), WF t → i < t.header.length →
      allNumB (colVals t i) = true → i ∈ ds →
      colVals (demean_col t ds) i = demeanVals (colVals t i)
  | [], _, _, _, _, _, hmem => absurd hmem (List.not_mem_nil _)
  | a :: ds, t, i, hWF, hi, hnum, hmem => by
      show colVals (demean_col (demeanOne t a) ds) i = _
      by_cases hia : i = a
      · subst hia
        have hself : colVals (demeanOne t i) i = demeanVals (colVals t i) :=
          colVals_demeanOne_self t i hWF hi
        by_cases hds : i ∈ ds
        · have hnum' : allNumB (colVals (demeanOne t i) i) = true := by
            rw [hself]
            exact allNumB_demeanVals _ hnum
          rw [colVals_demean_col_mem ds (demeanOne t i) i (WF_demeanOne t i hWF) hi hnum' hds,
            hself, demeanVals_idem _ hnum]
        · rw [colVals_demean_col_not_mem ds (demeanOne t i) i hds, hself]
      · have hmem' : i ∈ ds := by
          cases List.mem_cons.mp hmem with
          | inl e => exact absurd e hia
          | inr m => exact m
        have hne : colVals (demeanOne t a) i = colVals t i :=
          colVals_demeanOne_ne t a i (fun e => hia e.symm)
        rw [colVals_demean_col_mem ds (demeanOne t a) i (WF_demeanOne t a hWF) hi
          (hne ▸ hnum) hmem', hne]

/-- C3: for every well-formed table and every selected in-range column index
whose column holds only numeric values, each value of that column in the
centering transform's output equals the corresponding input value minus the
arithmetic mean of that input column. -/
theorem C3_demean_subtracts_mean (t : Table) (col_indices : List ℕ) (i : ℕ)
    (hWF : WF t) (hi : i < t.header.length) (hnum : allNumB (colVals t i) = true)
    (hmem : i ∈ col_indices) :
    colVals (demean_col t col_indices) i
      = (colVals t i).map (fun c =>
          Cell.float (cellVal c
            - ((colVals t i).map cellVal).sum / ((colVals t i).length : ℚ))) := by
  rw [colVals_demean_col_mem col_indices t i hWF hi hnum hmem]
  show (colVals t i).map (demeanCell (meanOf (colVals t i))) = _
  rw [meanOf_allNum _ hnum]
  apply List.map_congr_left
  intro c hc
  have hc' : (toNum? c).isSome = true := by
    simp only [allNumB, List.all_eq_true] at hnum
    exact hnum c hc
  cases hopt : toNum? c with
  | none => rw [hopt] at hc'; simp at hc'
  | some v =>
      rw [demeanCell_some _ _ _ hopt]
      simp [cellVal, hopt]

theorem C3_demean_subtracts_mean_witness :
    WF exTblAB ∧ 1 < exTblAB.header.length ∧ allNumB (colVals exTblAB 1) = true ∧
    1 ∈ ([1] : List ℕ) ∧
    colVals (demean_col exTblAB [1]) 1
      = (colVals exTblAB 1).map (fun c =>
          Cell.float (cellVal c
            - ((colVals exTblAB 1).map cellVal).sum / ((colVals exTblAB 1).length : ℚ))) :=
  ⟨by decide, by decide, by decide, by decide,
    C3_demean_subtracts_mean exTblAB [1] 1 (by decide) (by decide) (by decide) (by decide)⟩

/-- C1 evidence of a code bug in the set reconciler wiring: on a table
where sub-002 carries a missing covariate and missing-value removal is on
(no manual lists), sub-002 is present in the loaded table and absent from
the filtered table, so the claimed reconciliation (original IDs minus
filtered IDs, plus the manual removals) yields the exclusion list
containing exactly sub-002; but the pipeline's final exclusion list is
empty, because the call at mk_design.py line 397 passes the filtered frame
itself as df_all, so the set difference inside mk_adj_sub_list is always
empty.  The inclusion list is as claimed. -/
theorem C1_reconciler_code_divergence :
    (mk_design exTblNan [] [] [] [] true " ").2.1 = [] ∧
    (mk_design exTblNan [] [] [] [] true " ").2.2 = ["sub-001"] ∧
    "sub-002" ∈ ids (mk_df exTblNan) ∧
    "sub-002" ∉ ids (keep_columns (rm_sub (subs_retain (mk_df exTblNan) []) []) [] true) ∧
    sortStrings ((ids (mk_df exTblNan)).dedup.filter
        (fun s => ! (ids (keep_columns (rm_sub (subs_retain (mk_df exTblNan) []) []) [] true)).contains s)
      ++ []) = ["sub-002"] := by
  refine ⟨by decide, by decide, by decide, by decide, by decide⟩
